import Mathlib

/-!
Verification of the dtree repository (stree.py, lsptest2.py, stree/dtree.py).

This file gives a shallow embedding, in Lean 4, of the parts of the program
that the specification claims are about:

* the LSP wire framing performed by send_request / send_notification and
  read_message (streams are modelled as lists of characters; text-mode
  newline translation is not modelled since every input considered here
  uses the \x0d\x0a sequences that strip() removes either way);
* the request-id correlator (global _request_id counter);
* the SymbolKind table kind_map / SYMBOL_KIND_MAP;
* parse_document_symbols and parse_symbol_information;
* the flat-shape container grouping of lsptest2.py (get_or_create_node,
  add_symbol_to_tree and the loop in main);
* build_filesystem_tree together with is_ignored (the gitignore matcher is
  an injectable predicate, exactly as the spec treats it; permission, owner
  and size formatting is out of scope per the spec and is omitted from the
  node model);
* attach_symbols_recursive / attach_symbol_children and the message loop of
  collect_document_symbols_for_file (process I/O is abstracted into the list
  of decoded incoming messages, and the per-file symbol query into a
  function from file paths to symbol lists).

Python specific behaviour that matters here is modelled explicitly:
dict assignment overwrites, dict.get defaults, str.strip / str.split with a
separator and count 1, int() parsing (an optional sign followed by decimal
digits; underscore separators and non-ASCII digits are not modelled),
truthiness of strings and lists, and file.read(n) returning at most n
characters (everything that remains when n is negative).
-/

namespace Stree

/-! ### Python string primitives -/

/-- Characters removed by str.strip() with no argument. -/
def isPySpace (c : Char) : Bool :=
  c = ' ' || c = '\t' || c = '\n' || c = '\r' || c = '\x0b' || c = '\x0c'

/-- Model of str.strip(): drop whitespace from both ends. -/
def pyStrip (l : List Char) : List Char :=
  ((l.dropWhile isPySpace).reverse.dropWhile isPySpace).reverse

/-- Model of str.lower() on the ASCII header names used by the program. -/
def pyLower (l : List Char) : List Char :=
  l.map Char.toLower

/-- Model of s.split(sep, 1): split at the first occurrence of sep.
Returns none when sep does not occur, which in the source makes the
two-name unpacking raise ValueError. -/
def splitOnce (sep : Char) : List Char → Option (List Char × List Char)
  | [] => none
  | c :: cs =>
    if c = sep then some ([], cs)
    else (splitOnce sep cs).map (fun p => (c :: p.1, p.2))

/-- Python dict assignment d[k] = v: overwrite the binding if the key is
present, otherwise append it. -/
def dictSet (d : List (List Char × List Char)) (k v : List Char) :
    List (List Char × List Char) :=
  match d with
  | [] => [(k, v)]
  | (k0, v0) :: rest =>
    if k0 = k then (k, v) :: rest else (k0, v0) :: dictSet rest k v

/-- Python dict lookup d.get(k): first binding for the key, if any. -/
def dictGet (d : List (List Char × List Char)) (k : List Char) :
    Option (List Char) :=
  match d with
  | [] => none
  | (k0, v0) :: rest => if k0 = k then some v0 else dictGet rest k

/-- Decimal digit character for a value below ten. -/
def digitChr (n : Nat) : Char :=
  Char.ofNat (48 + n)

/-- Decimal representation of a natural number, as produced by the
f-string formatting of len(text) in the source. -/
def natToDigits (n : Nat) : List Char :=
  if n < 10 then [digitChr n]
  else natToDigits (n / 10) ++ [digitChr (n % 10)]
termination_by n
decreasing_by
  exact Nat.div_lt_self (by omega) (by omega)

/-- Numeric value of a list of decimal digit characters. -/
def digitsToNat (l : List Char) : Nat :=
  l.foldl (fun a c => a * 10 + (c.toNat - 48)) 0

/-- Whether every character is a decimal ASCII digit. -/
def allDigits (l : List Char) : Bool :=
  l.all (fun c => 48 ≤ c.toNat && c.toNat ≤ 57)

/-- Model of int(s) on a str: optional sign, then decimal digits; raises
(returns none) otherwise. -/
def pyInt (s : List Char) : Option Int :=
  match pyStrip s with
  | '-' :: rest =>
    if rest ≠ [] && allDigits rest then some (-(digitsToNat rest : Int)) else none
  | '+' :: rest =>
    if rest ≠ [] && allDigits rest then some ((digitsToNat rest : Int)) else none
  | t => if t ≠ [] && allDigits t then some ((digitsToNat t : Int)) else none

/-- Model of file.read(n): at most n characters, everything when n is
negative, fewer than n only when the stream ends first. -/
def pyRead (n : Int) (s : List Char) : List Char × List Char :=
  if n < 0 then (s, []) else (s.take n.toNat, s.drop n.toNat)

/-- Model of file.readline(): the line including its terminator, and the
remaining stream; the whole remainder when no newline is left. -/
def readline : List Char → List Char × List Char
  | [] => ([], [])
  | c :: cs =>
    if c = '\n' then ([c], cs)
    else
      let p := readline cs
      (c :: p.1, p.2)

theorem readline_snd_length_le : ∀ s : List Char, (readline s).2.length ≤ s.length := by
  intro s
  induction s with
  | nil => simp [readline]
  | cons c cs ih =>
    simp only [readline]
    split
    · simp
    · simpa using Nat.le_succ_of_le ih

theorem readline_snd_length_lt (c : Char) (cs : List Char) :
    (readline (c :: cs)).2.length < (c :: cs).length := by
  simp only [readline]
  split
  · simp
  · simpa using Nat.lt_succ_of_le (readline_snd_length_le cs)

/-! ### Transport framing (send_request / send_notification / read_message) -/

/-- Outcome of one read_message call.  The constructor eos stands for the
source returning None, msg for it returning json.loads applied to the body
text recorded here, and err for a ValueError raised while splitting a
header line or parsing the Content-Length value. -/
inductive ReadRes where
  | eos
  | msg (body : List Char)
  | err
deriving DecidableEq

/-- Key under which the length header is stored after strip().lower(). -/
def clKey : List Char := "content-length".toList

/-- Body phase of read_message: fetch content-length (dict.get default 0
makes a missing header behave as length zero), parse it with int(), return
None on length zero, otherwise read the body; an empty read also yields
None because of the trailing truthiness test on the body. -/
def readBody (headers : List (List Char × List Char)) (s : List Char) :
    ReadRes × List Char :=
  match dictGet headers clKey with
  | none => (.eos, s)
  | some v =>
    match pyInt v with
    | none => (.err, s)
    | some n =>
      if n = 0 then (.eos, s)
      else
        let p := pyRead n s
        if p.1 = [] then (.eos, p.2) else (.msg p.1, p.2)

/-- Header phase of read_message: read lines until a blank one, recording
each stripped key/value pair; an exhausted stream makes readline return the
empty string, upon which the source returns None. -/
def readMessageAux : List Char → List (List Char × List Char) → ReadRes × List Char
  | [], _ => (.eos, [])
  | c :: cs, headers =>
    let p := readline (c :: cs)
    let line := pyStrip p.1
    if line = [] then readBody headers p.2
    else
      match splitOnce ':' line with
      | none => (.err, p.2)
      | some kv =>
        readMessageAux p.2 (dictSet headers (pyLower (pyStrip kv.1)) (pyStrip kv.2))
termination_by s _ => s.length
decreasing_by
  exact readline_snd_length_lt c cs

/-- Model of read_message on a character stream. -/
def read_message (s : List Char) : ReadRes × List Char :=
  readMessageAux s []

/-- The framing shared by send_request and send_notification: the literal
Content-Length header with the decimal length of the body, a blank line,
then the body. -/
def encodeFrame (text : List Char) : List Char :=
  "Content-Length: ".toList ++ natToDigits text.length
    ++ ('\r' :: '\n' :: '\r' :: '\n' :: []) ++ text

/-! ### Request/response correlator (send_request / send_notification) -/

/-- Envelope written to the stdin of the language-server process.  The
params value itself is irrelevant to every claim, so it is kept as an
opaque optional string; what matters is whether the params key is present
and whether the id key is present. -/
structure Envelope where
  jsonrpc : String
  id : Option Nat
  method : String
  params : Option String

/-- Connection state: the global _request_id counter, plus the envelopes
written so far (most recent last). -/
structure Conn where
  request_id : Nat
  written : List Envelope

/-- A fresh connection: the module-level counter starts at zero. -/
def Conn.fresh : Conn :=
  { request_id := 0, written := [] }

/-- Model of send_request: increment the counter, emit an envelope carrying
the new id, and return that id. -/
def send_request (c : Conn) (method : String) (params : Option String) :
    Nat × Conn :=
  let rid := c.request_id + 1
  (rid,
    { request_id := rid,
      written := c.written ++ [⟨"2.0", some rid, method, params⟩] })

/-- Model of send_notification: emit an envelope without an id field; the
counter is untouched. -/
def send_notification (c : Conn) (method : String) (params : Option String) :
    Conn :=
  { c with written := c.written ++ [⟨"2.0", none, method, params⟩] }

/-- One step of client traffic: a call or a notification. -/
inductive LspOp where
  | call (method : String) (params : Option String)
  | notify (method : String) (params : Option String)

/-- Run a sequence of operations, collecting the ids returned by the call
steps in order. -/
def runOps (c : Conn) : List LspOp → Conn × List Nat
  | [] => (c, [])
  | .call m p :: rest =>
    let r := send_request c m p
    let q := runOps r.2 rest
    (q.1, r.1 :: q.2)
  | .notify m p :: rest => runOps (send_notification c m p) rest

/-- Number of call steps in a sequence of operations. -/
def countCalls (ops : List LspOp) : Nat :=
  (ops.filter fun o => match o with | .call _ _ => true | .notify _ _ => false).length

/-! ### SymbolKind table and symbol parsing -/

/-- Model of SYMBOL_KIND_MAP.get together with the kind_map wrapper of
stree.py: a total function from the numeric code to the short tag, with
the default tag for any code outside the table. -/
def kind_map : Int → String
  | 1 => "f:"
  | 2 => "d:"
  | 3 => "d:"
  | 4 => "d:"
  | 5 => "cl:"
  | 6 => "fn:"
  | 7 => "var:"
  | 8 => "var:"
  | 9 => "fn:"
  | 10 => "enum:"
  | 11 => "int:"
  | 12 => "fn:"
  | 13 => "var:"
  | 14 => "var:"
  | 15 => "str:"
  | 16 => "num:"
  | 17 => "bool:"
  | 18 => "arr:"
  | 19 => "obj:"
  | 20 => "key:"
  | 21 => "null:"
  | 22 => "mem:"
  | 23 => "str:"
  | 24 => "event:"
  | 25 => "oper:"
  | 26 => "typ:"
  | _ => "??:"

/-- A DocumentSymbol item of the nested response shape: name, numeric
kind, the detail string (dict.get default empty) and child items. -/
inductive DocSym where
  | mk (name : String) (kind : Int) (detail : String) (children : List DocSym)

/-- Name field of a DocumentSymbol item. -/
def DocSym.name : DocSym → String
  | .mk n _ _ _ => n

/-- Intermediate symbol node produced by either normalization. -/
inductive SymbolNode where
  | mk (name : String) (kind : String) (children : List SymbolNode)

/-- Display name of a symbol node. -/
def SymbolNode.name : SymbolNode → String
  | .mk n _ _ => n

/-- Kind tag of a symbol node. -/
def SymbolNode.kind : SymbolNode → String
  | .mk _ k _ => k

/-- Children of a symbol node. -/
def SymbolNode.children : SymbolNode → List SymbolNode
  | .mk _ _ cs => cs

/-- Model of str.startswith on the kind tags. -/
def strStarts (s pre : String) : Bool :=
  pre.toList.isPrefixOf s.toList

/-- Model of the inner from_doc_symbol of parse_document_symbols: map the
kind, append the detail to the name when the tag is function-like and the
detail is truthy, recurse on the children. -/
def from_doc_symbol : DocSym → SymbolNode
  | .mk name kind detail children =>
    let k := kind_map kind
    let nm := if strStarts k "fn:" && detail ≠ "" then name ++ " " ++ detail else name
    .mk nm k (children.attach.map fun c => from_doc_symbol c.1)
termination_by d => sizeOf d
decreasing_by
  have := List.sizeOf_lt_of_mem c.2
  simp only [DocSym.mk.sizeOf_spec]
  omega

/-- Model of parse_document_symbols. -/
def parse_document_symbols (doc_syms : List DocSym) : List SymbolNode :=
  doc_syms.map from_doc_symbol

/-- A SymbolInformation item of the flat response shape.  The location
field never influences the produced nodes and is omitted; containerName
models dict.get, with none for an absent key. -/
structure SymInfo where
  name : String
  kind : Int
  containerName : Option String

/-- Model of parse_symbol_information of stree.py: every item becomes a
childless node, container information is not consulted. -/
def parse_symbol_information (sym_info : List SymInfo) : List SymbolNode :=
  sym_info.map fun si => .mk si.name (kind_map si.kind) []

/-! ### Flat-shape container grouping of lsptest2.py -/

/-- Model of the SYMBOL_KIND_MAP of lsptest2.py together with its own
kind_map wrapper.  The table differs from the one in stree.py: the tags
for codes 19 to 26 carry no trailing colon there. -/
def kind_map2 : Int → String
  | 1 => "f:"
  | 2 => "d:"
  | 3 => "d:"
  | 4 => "d:"
  | 5 => "cl:"
  | 6 => "fn:"
  | 7 => "var:"
  | 8 => "var:"
  | 9 => "fn:"
  | 10 => "enum:"
  | 11 => "int:"
  | 12 => "fn:"
  | 13 => "var:"
  | 14 => "var:"
  | 15 => "str:"
  | 16 => "num:"
  | 17 => "bool:"
  | 18 => "arr:"
  | 19 => "obj"
  | 20 => "key"
  | 21 => "null"
  | 22 => "mem"
  | 23 => "str"
  | 24 => "event"
  | 25 => "oper"
  | 26 => "typ"
  | _ => "??:"

/-- Node created for one flat item by add_symbol_to_tree of lsptest2.py,
tagged through that file's own kind table. -/
def flatNode (si : SymInfo) : SymbolNode :=
  .mk si.name (kind_map2 si.kind) []

/-- Rewrite the first child with the given name using f; none when no
child has that name.  This captures the aliasing in get_or_create_node:
the returned node is a live reference into the children of the parent. -/
def updateFirst (nm : String) (f : SymbolNode → SymbolNode) :
    List SymbolNode → Option (List SymbolNode)
  | [] => none
  | n :: ns =>
    if n.name = nm then some (f n :: ns)
    else (updateFirst nm f ns).map (fun l => n :: l)

/-- Append a child to a node, as add_symbol_to_tree and the container
creation in get_or_create_node do. -/
def appendChild (n : SymbolNode) (c : SymbolNode) : SymbolNode :=
  .mk n.name n.kind (n.children ++ [c])

/-- One iteration of the flat-shape loop in the main of lsptest2.py: with
a truthy containerName, get_or_create_node followed by add_symbol_to_tree
on the found or created container; otherwise add_symbol_to_tree on the
root itself. -/
def placeFlat (root : SymbolNode) (si : SymInfo) : SymbolNode :=
  match si.containerName with
  | some c =>
    if c ≠ "" then
      match updateFirst c (fun n => appendChild n (flatNode si)) root.children with
      | some cs => .mk root.name root.kind cs
      | none => appendChild root (SymbolNode.mk c "d:" [flatNode si])
    else appendChild root (flatNode si)
  | none => appendChild root (flatNode si)

/-- The whole flat-shape branch: fold the loop over the response items. -/
def buildFlat (root : SymbolNode) (syms : List SymInfo) : SymbolNode :=
  syms.foldl placeFlat root

/-! ### Merged tree nodes and the filesystem builder -/

/-- Merged-tree node (TreeNode of stree.py).  The node_type string is one
of dir, file or symbol, exactly as in the source; permissions, owner and
size only echo stat output when extras are requested and the spec places
their formatting out of scope, so they are omitted from the model. -/
inductive PTree where
  | mk (name : String) (path : String) (node_type : String)
      (symbol_kind : String) (children : List PTree)

/-- Display name of a merged-tree node. -/
def PTree.name : PTree → String
  | .mk n _ _ _ _ => n

/-- Absolute path carried by a merged-tree node. -/
def PTree.path : PTree → String
  | .mk _ p _ _ _ => p

/-- Node type string: dir, file or symbol. -/
def PTree.node_type : PTree → String
  | .mk _ _ t _ _ => t

/-- Children of a merged-tree node. -/
def PTree.children : PTree → List PTree
  | .mk _ _ _ _ cs => cs

/-- What the operating system reports for a path during the walk.  The
vanished constructor stands for os.stat raising FileNotFoundError, and
deniedDir for a directory whose os.scandir raises PermissionError after a
successful stat. -/
inductive FSItem where
  | file
  | dir (entries : List (String × FSItem))
  | vanished
  | deniedDir

/-- Model of os.path.basename: the part after the last slash. -/
def pyBasename (s : String) : String :=
  ⟨(s.toList.reverse.takeWhile (fun c => c ≠ '/')).reverse⟩

/-- Name stored in a node: basename, or the whole path when the basename
is falsy, mirroring the or-expression in the source. -/
def treeName (path : String) : String :=
  if pyBasename path = "" then path else pyBasename path

/-- Model of os.path.relpath for a path lying under the root (the only
case the walk produces); the backslash replacement of the source is the
identity on such paths. -/
def pyRelpath (root full : String) : String :=
  let r := (root ++ "/").toList
  if r.isPrefixOf full.toList then ⟨full.toList.drop r.length⟩ else full

/-- Model of is_ignored: hidden check first, then the injectable gitignore
predicate on the relative path, if a spec is present. -/
def is_ignored (spec : Option (String → Bool)) (root_dir : String)
    (full_path : String) (also_ignore_hidden : Bool) : Bool :=
  if also_ignore_hidden && (pyBasename full_path).startsWith "." then true
  else
    match spec with
    | none => false
    | some m => m (pyRelpath root_dir full_path)

/-- Model of build_filesystem_tree.  Paths are taken to be absolute, so
os.path.abspath is the identity on them.  Directory entries are sorted by
name exactly as the source sorts scandir output, each entry recurses on
its joined path, and entries whose recursion yields none are skipped. -/
def build_filesystem_tree (spec : Option (String → Bool))
    (root_for_ignores : String) (ignore_hidden : Bool)
    (start_path : String) (item : FSItem) : Option PTree :=
  if is_ignored spec root_for_ignores start_path ignore_hidden then none
  else
    match item with
    | .vanished => none
    | .file => some (.mk (treeName start_path) start_path "file" "" [])
    | .deniedDir => some (.mk (treeName start_path) start_path "dir" "" [])
    | .dir entries =>
      some (.mk (treeName start_path) start_path "dir" ""
        (((entries.attach.mergeSort fun a b => decide (a.1.1 ≤ b.1.1)).filterMap
          fun e =>
            build_filesystem_tree spec root_for_ignores ignore_hidden
              (start_path ++ "/" ++ e.1.1) e.1.2)))
termination_by sizeOf item
decreasing_by
  have h1 := List.sizeOf_lt_of_mem e.2
  cases hx : e.1 with
  | mk nm it =>
    rw [hx] at h1
    simp only [FSItem.dir.sizeOf_spec, Prod.mk.sizeOf_spec] at *
    omega

/-! ### Symbol attachment (attach_symbols_recursive / attach_symbol_children) -/

/-- Model of attach_symbol_children, seen from the produced subtree: the
TreeNode built for a symbol and, recursively, for its children; every node
receives the path of the owning file, because attach_symbols_recursive
seeds it with the file path and attach_symbol_children copies the parent
path into each child. -/
def symToTree (path : String) : SymbolNode → PTree
  | .mk n k cs => .mk n path "symbol" k (cs.attach.map fun c => symToTree path c.1)
termination_by s => sizeOf s
decreasing_by
  have := List.sizeOf_lt_of_mem c.2
  simp only [SymbolNode.mk.sizeOf_spec]
  omega

/-- Model of attach_symbols_recursive.  The per-file symbol query (didOpen
followed by documentSymbol over the connection) is abstracted into the
function symsFor from the file path to the normalized symbol list, and the
extension filter together with the os.path.isfile recheck into the
predicate eligible; the claims hold for every choice of both. -/
def attach_symbols_recursive (eligible : String → Bool)
    (symsFor : String → List SymbolNode) : PTree → PTree
  | .mk n p t k cs =>
    if t = "file" then
      if eligible p then .mk n p t k (cs ++ (symsFor p).map (symToTree p))
      else .mk n p t k cs
    else
      if t = "dir" then
        .mk n p t k
          (cs.attach.map fun c => attach_symbols_recursive eligible symsFor c.1)
      else .mk n p t k cs
termination_by t => sizeOf t
decreasing_by
  have := List.sizeOf_lt_of_mem c.2
  simp only [PTree.mk.sizeOf_spec]
  omega

/-- Whether a tree is a pure filesystem tree: every node is a dir or a
file node.  This is what build_filesystem_tree produces, before any
symbols are attached. -/
def pureFS : PTree → Bool
  | .mk _ _ t _ cs =>
    (t = "dir" || t = "file") && cs.attach.all fun c => pureFS c.1
termination_by t => sizeOf t
decreasing_by
  have := List.sizeOf_lt_of_mem c.2
  simp only [PTree.mk.sizeOf_spec]
  omega

/-- The symbol-subtree invariant, checked over a whole tree: children of a
symbol node are symbol nodes carrying the same path, and a symbol child of
a file node carries the path of that file. -/
def invB : PTree → Bool
  | .mk _ p t _ cs =>
    (if t = "symbol" then
      cs.all fun c => decide (c.node_type = "symbol") && decide (c.path = p)
     else true)
    && (if t = "file" then
      cs.all fun c => !(decide (c.node_type = "symbol")) || decide (c.path = p)
     else true)
    && cs.attach.all fun c => invB c.1
termination_by t => sizeOf t
decreasing_by
  have := List.sizeOf_lt_of_mem c.2
  simp only [PTree.mk.sizeOf_spec]
  omega

/-! ### The read-until-match loop of collect_document_symbols_for_file -/

/-- Value found under the result key of a decoded response, as far as the
loop inspects it: not a list at all, a list of DocumentSymbol items (first
item carries a children key), or a list of SymbolInformation items. -/
inductive RValue where
  | nonList
  | docList (l : List DocSym)
  | infoList (l : List SymInfo)

/-- A decoded incoming message: an optional id (none when the id key is
absent) and an optional result value (none when the result key is absent,
in which case dict.get substitutes an empty list). -/
structure LspMsg where
  id : Option Int
  result : Option RValue

/-- Model of the read-until-match loop of collect_document_symbols_for_file.
The incoming stream is the list of messages read_message would decode, in
order; exhausting it is read_message returning None.  A matching message
with a missing, non-list or empty result yields no symbols; otherwise the
response shape picks the parser. -/
def collect_document_symbols (req_id : Int) : List LspMsg → List SymbolNode
  | [] => []
  | m :: ms =>
    if m.id = some req_id then
      match m.result with
      | none => []
      | some .nonList => []
      | some (.docList l) => if l.isEmpty then [] else parse_document_symbols l
      | some (.infoList l) => if l.isEmpty then [] else parse_symbol_information l
    else collect_document_symbols req_id ms

/-! ### Helper lemmas on the python primitives -/

theorem digit_not_space {c : Char} (h : 48 ≤ c.toNat ∧ c.toNat ≤ 57) :
    isPySpace c = false := by
  unfold isPySpace
  have h32 : c ≠ ' ' := by intro he; subst he; revert h; decide
  have h9 : c ≠ '\t' := by intro he; subst he; revert h; decide
  have h10 : c ≠ '\n' := by intro he; subst he; revert h; decide
  have h13 : c ≠ '\r' := by intro he; subst he; revert h; decide
  have h11 : c ≠ '\x0b' := by intro he; subst he; revert h; decide
  have h12 : c ≠ '\x0c' := by intro he; subst he; revert h; decide
  simp [h32, h9, h10, h13, h11, h12]

theorem digitChr_toNat {n : Nat} (h : n < 10) : (digitChr n).toNat = 48 + n := by
  interval_cases n <;> decide

theorem natToDigits_digit :
    ∀ n : Nat, ∀ c ∈ natToDigits n, 48 ≤ c.toNat ∧ c.toNat ≤ 57 := by
  intro n
  induction n using Nat.strong_induction_on with
  | _ n ih =>
    rw [natToDigits]
    split
    · intro c hc
      simp only [List.mem_singleton] at hc
      subst hc
      rw [digitChr_toNat (by omega)]
      omega
    · intro c hc
      rw [List.mem_append, List.mem_singleton] at hc
      rcases hc with hc | hc
      · exact ih (n / 10) (Nat.div_lt_self (by omega) (by omega)) c hc
      · subst hc
        rw [digitChr_toNat (Nat.mod_lt n (by omega))]
        have := Nat.mod_lt n (show 0 < 10 by omega)
        omega

theorem natToDigits_ne_nil (n : Nat) : natToDigits n ≠ [] := by
  rw [natToDigits]
  split <;> simp

theorem newline_not_mem_natToDigits (n : Nat) : ('\n' : Char) ∉ natToDigits n := by
  intro h
  have := natToDigits_digit n _ h
  revert this
  decide

theorem digitsToNat_go (step : Nat → Char → Nat)
    (hstep : step = fun a c => a * 10 + (c.toNat - 48)) :
    ∀ n a : Nat,
      List.foldl step a (natToDigits n) = a * 10 ^ (natToDigits n).length + n := by
  intro n
  induction n using Nat.strong_induction_on with
  | _ n ih =>
    intro a
    rw [natToDigits]
    split
    · next h =>
      simp only [List.foldl_cons, List.foldl_nil, List.length_singleton, hstep]
      rw [digitChr_toNat (by omega)]
      simp only [pow_one]
      omega
    · rw [List.foldl_append, ih (n / 10) (Nat.div_lt_self (by omega) (by omega)) a]
      simp only [List.foldl_cons, List.foldl_nil, List.length_append,
        List.length_singleton, hstep]
      rw [digitChr_toNat (Nat.mod_lt n (by omega))]
      have hmod : 48 + n % 10 - 48 = n % 10 := by omega
      rw [hmod, pow_succ]
      have hdm := Nat.div_add_mod n 10
      ring_nf
      omega

theorem digitsToNat_natToDigits (n : Nat) : digitsToNat (natToDigits n) = n := by
  unfold digitsToNat
  rw [digitsToNat_go _ rfl n 0]
  simp

theorem allDigits_natToDigits (n : Nat) : allDigits (natToDigits n) = true := by
  unfold allDigits
  rw [List.all_eq_true]
  intro c hc
  have := natToDigits_digit n c hc
  simp only [Bool.and_eq_true, decide_eq_true_eq]
  omega

theorem pyStrip_all_digits {D : List Char}
    (hD : ∀ c ∈ D, 48 ≤ c.toNat ∧ c.toNat ≤ 57) : pyStrip D = D := by
  unfold pyStrip
  have h1 : D.dropWhile isPySpace = D := by
    cases D with
    | nil => rfl
    | cons d rest =>
      rw [List.dropWhile_cons, digit_not_space (hD d (List.mem_cons_self d rest))]
      simp
  rw [h1]
  have h2 : D.reverse.dropWhile isPySpace = D.reverse := by
    cases hr : D.reverse with
    | nil => rfl
    | cons d rest =>
      have hd : d ∈ D := by
        have : d ∈ D.reverse := by rw [hr]; exact List.mem_cons_self d rest
        simpa using this
      rw [List.dropWhile_cons, digit_not_space (hD d hd)]
      simp
  rw [h2, List.reverse_reverse]

theorem pyInt_natToDigits (n : Nat) : pyInt (natToDigits n) = some (n : Int) := by
  unfold pyInt
  rw [pyStrip_all_digits (natToDigits_digit n)]
  have hhead : ∀ d rest, natToDigits n = d :: rest → 48 ≤ d.toNat ∧ d.toNat ≤ 57 := by
    intro d rest h
    exact natToDigits_digit n d (by rw [h]; exact List.mem_cons_self d rest)
  split
  · next rest heq =>
    exact absurd (hhead _ _ heq) (by decide)
  · next rest heq =>
    exact absurd (hhead _ _ heq) (by decide)
  · next t h1 h2 =>
    rw [if_pos]
    · rw [digitsToNat_natToDigits]
    · simp [natToDigits_ne_nil n, allDigits_natToDigits n]

theorem readline_append {l : List Char} (r : List Char) (h : ('\n' : Char) ∉ l) :
    readline (l ++ '\n' :: r) = (l ++ ['\n'], r) := by
  induction l with
  | nil => simp [readline]
  | cons c cs ih =>
    have hc : c ≠ '\n' := by
      intro he
      exact h (by rw [he]; exact List.mem_cons_self _ _)
    rw [List.cons_append, readline]
    simp only [if_neg hc]
    rw [ih (fun hm => h (List.mem_cons_of_mem c hm))]
    simp

theorem splitOnce_append {sep : Char} {l : List Char} (r : List Char)
    (h : sep ∉ l) : splitOnce sep (l ++ sep :: r) = some (l, r) := by
  induction l with
  | nil => simp [splitOnce]
  | cons c cs ih =>
    have hc : c ≠ sep := by
      intro he
      exact h (by rw [he]; exact List.mem_cons_self _ _)
    rw [List.cons_append, splitOnce]
    simp only [if_neg hc]
    rw [ih (fun hm => h (List.mem_cons_of_mem c hm))]
    rfl

theorem header_strip {D : List Char}
    (hD : ∀ c ∈ D, 48 ≤ c.toNat ∧ c.toNat ≤ 57) (hne : D ≠ []) :
    pyStrip ("Content-Length: ".toList ++ D ++ ['\r', '\n'])
      = "Content-Length: ".toList ++ D := by
  unfold pyStrip
  have h1 : (("Content-Length: ".toList ++ D ++ ['\r', '\n']).dropWhile isPySpace)
      = "Content-Length: ".toList ++ D ++ ['\r', '\n'] := by
    show (('C' : Char) :: ("ontent-Length: ".toList ++ D ++ ['\r', '\n'])).dropWhile
        isPySpace = _
    rw [List.dropWhile_cons]
    simp [isPySpace]
  rw [h1]
  obtain ⟨d, rest, hrev⟩ : ∃ d rest, D.reverse = d :: rest := by
    cases hr : D.reverse with
    | nil => exact absurd (by simpa using congrArg List.reverse hr) hne
    | cons d rest => exact ⟨d, rest, rfl⟩
  have hd : 48 ≤ d.toNat ∧ d.toNat ≤ 57 := by
    apply hD
    have : d ∈ D.reverse := by rw [hrev]; exact List.mem_cons_self d rest
    simpa using this
  have h2 : ("Content-Length: ".toList ++ D ++ ['\r', '\n']).reverse
      = '\n' :: '\r' :: (D.reverse ++ "Content-Length: ".toList.reverse) := by
    simp
  rw [h2]
  rw [List.dropWhile_cons]
  simp only [show isPySpace '\n' = true from rfl, if_true]
  rw [List.dropWhile_cons]
  simp only [show isPySpace '\r' = true from rfl, if_true]
  rw [hrev, List.cons_append, List.dropWhile_cons, digit_not_space hd]
  simp only [Bool.false_eq_true, if_false]
  rw [← List.cons_append, ← hrev]
  simp

theorem strip_space_digits {D : List Char}
    (hD : ∀ c ∈ D, 48 ≤ c.toNat ∧ c.toNat ≤ 57) (hne : D ≠ []) :
    pyStrip (' ' :: D) = D := by
  unfold pyStrip
  rw [List.dropWhile_cons]
  simp only [show isPySpace ' ' = true from rfl, if_true]
  have h1 : D.dropWhile isPySpace = D := by
    cases D with
    | nil => rfl
    | cons d rest =>
      rw [List.dropWhile_cons, digit_not_space (hD d (List.mem_cons_self d rest))]
      simp
  rw [h1]
  have h2 : D.reverse.dropWhile isPySpace = D.reverse := by
    cases hr : D.reverse with
    | nil => rfl
    | cons d rest =>
      have hd : d ∈ D := by
        have : d ∈ D.reverse := by rw [hr]; exact List.mem_cons_self d rest
        simpa using this
      rw [List.dropWhile_cons, digit_not_space (hD d hd)]
      simp
  rw [h2, List.reverse_reverse]

theorem readMessageAux_step (l r : List Char)
    (headers : List (List Char × List Char)) (h : ('\n' : Char) ∉ l) :
    readMessageAux (l ++ '\n' :: r) headers =
      if pyStrip (l ++ ['\n']) = [] then readBody headers r
      else
        match splitOnce ':' (pyStrip (l ++ ['\n'])) with
        | none => (ReadRes.err, r)
        | some kv =>
          readMessageAux r (dictSet headers (pyLower (pyStrip kv.1)) (pyStrip kv.2)) := by
  cases l with
  | nil =>
    rw [List.nil_append, readMessageAux]
    rw [show readline ('\n' :: r) = (['\n'], r) from by simp [readline]]
    rfl
  | cons c cs =>
    rw [List.cons_append, readMessageAux]
    rw [show c :: (cs ++ '\n' :: r) = (c :: cs) ++ '\n' :: r from rfl]
    rw [readline_append r h]

/-- C1.  Framing round-trip: for every non-empty payload text p, decoding
the stream produced by the framing of send_request / send_notification (a
Content-Length header with the length of p, a blank line, then p) yields a
message whose body is exactly p, with the stream fully consumed.  The
source then applies json.loads to this body, which on the json.dumps
output used as payload recovers the original envelope. -/
theorem frame_roundtrip (p : List Char) (hp : p ≠ []) :
    read_message (encodeFrame p) = (.msg p, []) := by
  unfold read_message
  have hD := natToDigits_digit p.length
  have hDne := natToDigits_ne_nil p.length
  have hE : encodeFrame p
      = ("Content-Length: ".toList ++ natToDigits p.length ++ ['\r'])
        ++ '\n' :: ('\r' :: '\n' :: p) := by
    simp [encodeFrame]
  rw [hE]
  rw [readMessageAux_step _ _ _ ?hnl]
  case hnl =>
    intro hmem
    rw [List.mem_append, List.mem_append] at hmem
    rcases hmem with (hmem | hmem) | hmem
    · revert hmem; decide
    · exact newline_not_mem_natToDigits p.length hmem
    · revert hmem; decide
  have hstrip : pyStrip (("Content-Length: ".toList ++ natToDigits p.length
        ++ ['\r']) ++ ['\n'])
      = "Content-Length: ".toList ++ natToDigits p.length := by
    have hre : ("Content-Length: ".toList ++ natToDigits p.length ++ ['\r']) ++ ['\n']
        = "Content-Length: ".toList ++ natToDigits p.length ++ ['\r', '\n'] := by
      simp
    rw [hre]
    exact header_strip hD hDne
  rw [hstrip]
  rw [if_neg (by simp)]
  have hsplit : splitOnce ':' ("Content-Length: ".toList ++ natToDigits p.length)
      = some ("Content-Length".toList, ' ' :: natToDigits p.length) := by
    have heq : "Content-Length: ".toList ++ natToDigits p.length
        = "Content-Length".toList ++ ':' :: (' ' :: natToDigits p.length) := by
      rw [show "Content-Length: ".toList
          = "Content-Length".toList ++ [':', ' '] from by decide]
      simp
    rw [heq, splitOnce_append _ (by decide)]
  rw [hsplit]
  simp only []
  rw [show pyLower (pyStrip "Content-Length".toList) = clKey from by decide]
  rw [strip_space_digits hD hDne]
  rw [show ('\r' : Char) :: '\n' :: p = ['\r'] ++ '\n' :: p from rfl]
  rw [readMessageAux_step _ _ _ (by decide)]
  rw [show pyStrip (['\r'] ++ ['\n']) = [] from by decide]
  rw [if_pos rfl]
  unfold readBody
  rw [show dictSet [] clKey (natToDigits p.length) = [(clKey, natToDigits p.length)]
      from rfl]
  rw [show dictGet [(clKey, natToDigits p.length)] clKey
      = some (natToDigits p.length) from by simp [dictGet]]
  simp only [pyInt_natToDigits]
  rw [if_neg (show ¬((p.length : Int) = 0) by simp [hp])]
  unfold pyRead
  rw [if_neg (Int.not_lt.mpr (Int.natCast_nonneg _))]
  simp [hp]

/-- Closed instance of the framing round-trip at a concrete payload. -/
theorem frame_roundtrip_witness :
    read_message (encodeFrame "abc".toList) = (.msg "abc".toList, []) :=
  frame_roundtrip "abc".toList (by decide)

/-- C10.  Zero-length body: a well-framed message announcing
Content-Length 0 makes read_message return the same end-of-stream signal
(the source returns None before attempting the body read) that a closed
stream produces, for any remaining stream contents, so an empty-body
message cannot be told apart from the stream having ended. -/
theorem zero_length_body_eos (rest : List Char) :
    read_message ("Content-Length: 0\r\n\r\n".toList ++ rest) = (.eos, rest)
    ∧ read_message [] = (.eos, []) := by
  constructor
  · unfold read_message
    have hE : "Content-Length: 0\r\n\r\n".toList ++ rest
        = "Content-Length: 0\r".toList ++ '\n' :: ('\r' :: '\n' :: rest) := by
      rw [show "Content-Length: 0\r\n\r\n".toList
          = "Content-Length: 0\r".toList ++ '\n' :: ('\r' :: '\n' :: []) from by decide]
      simp
    rw [hE, readMessageAux_step _ _ _ (by decide)]
    rw [show pyStrip ("Content-Length: 0\r".toList ++ ['\n'])
        = "Content-Length: 0".toList from by decide]
    rw [if_neg (by decide)]
    rw [show splitOnce ':' "Content-Length: 0".toList
        = some ("Content-Length".toList, " 0".toList) from by decide]
    simp only []
    rw [show pyLower (pyStrip "Content-Length".toList) = clKey from by decide]
    rw [show pyStrip " 0".toList = "0".toList from by decide]
    rw [show ('\r' : Char) :: '\n' :: rest = ['\r'] ++ '\n' :: rest from rfl]
    rw [readMessageAux_step _ _ _ (by decide)]
    rw [show pyStrip (['\r'] ++ ['\n']) = [] from by decide]
    rw [if_pos rfl]
    unfold readBody
    rw [show dictGet (dictSet [] clKey "0".toList) clKey = some "0".toList from
      by decide]
    simp only [show pyInt "0".toList = some 0 from by decide]
    simp
  · unfold read_message
    rw [readMessageAux]

/-- C3 counterexample.  The claim says a missing Content-Length header is
a framing error; on this complete header block without a Content-Length
the code instead returns None, the very value that signals a clean end of
stream, because dict.get substitutes length 0 and length 0 returns None.
The same constructor is also returned when the stream ends mid-header, so
neither situation is distinguishable from a clean end of stream, let alone
an error. -/
theorem read_message_missing_header_not_error :
    read_message "Foo: bar\r\n\r\n".toList = (.eos, []) ∧ ReadRes.eos ≠ ReadRes.err := by
  refine ⟨?_, by decide⟩
  unfold read_message
  have hE : "Foo: bar\r\n\r\n".toList
      = "Foo: bar\r".toList ++ '\n' :: ('\r' :: '\n' :: []) := by decide
  rw [hE, readMessageAux_step _ _ _ (by decide)]
  rw [show pyStrip ("Foo: bar\r".toList ++ ['\n']) = "Foo: bar".toList from by decide]
  rw [if_neg (by decide)]
  rw [show splitOnce ':' "Foo: bar".toList = some ("Foo".toList, " bar".toList) from
    by decide]
  simp only []
  rw [show ('\r' : Char) :: '\n' :: [] = ['\r'] ++ '\n' :: [] from rfl]
  rw [readMessageAux_step _ _ _ (by decide)]
  rw [show pyStrip (['\r'] ++ ['\n']) = [] from by decide]
  rw [if_pos rfl]
  unfold readBody
  rw [show dictGet (dictSet [] (pyLower (pyStrip "Foo".toList))
      (pyStrip " bar".toList)) clKey = none from by decide]

/-- C3 as amended.  Decode behaviour of read_message on malformed or
truncated input: an exhausted stream at header-reading time yields the
end-of-stream signal; a stripped non-empty header line without a colon
raises (the two-name unpacking of str.split fails); a missing
Content-Length header or a Content-Length of zero yields the
end-of-stream signal, not an error; a present but non-numeric
Content-Length value raises through int(); a body cut off with nothing
readable yields the end-of-stream signal; and a body cut short but
non-empty is returned as a message without any framing-level error. -/
theorem read_message_failure_modes :
    (∀ headers, readMessageAux [] headers = (.eos, []))
    ∧ (∀ c cs headers, pyStrip (readline (c :: cs)).1 ≠ [] →
        splitOnce ':' (pyStrip (readline (c :: cs)).1) = none →
        readMessageAux (c :: cs) headers = (.err, (readline (c :: cs)).2))
    ∧ (∀ headers rest, dictGet headers clKey = none →
        readBody headers rest = (.eos, rest))
    ∧ (∀ headers rest v, dictGet headers clKey = some v → pyInt v = none →
        readBody headers rest = (.err, rest))
    ∧ (∀ headers rest v, dictGet headers clKey = some v → pyInt v = some 0 →
        readBody headers rest = (.eos, rest))
    ∧ (∀ headers v n, dictGet headers clKey = some v → pyInt v = some n →
        0 < n → readBody headers [] = (.eos, []))
    ∧ (∀ headers rest v n, dictGet headers clKey = some v → pyInt v = some n →
        rest ≠ [] → (rest.length : Int) < n →
        readBody headers rest = (.msg rest, [])) := by
  refine ⟨?_, ?_, ?_, ?_, ?_, ?_, ?_⟩
  · intro headers
    rw [readMessageAux]
  · intro c cs headers h1 h2
    rw [readMessageAux]
    simp only [if_neg h1, h2]
  · intro headers rest h
    unfold readBody
    rw [h]
  · intro headers rest v h1 h2
    unfold readBody
    rw [h1]
    simp only [h2]
  · intro headers rest v h1 h2
    unfold readBody
    rw [h1]
    simp only [h2]
    simp
  · intro headers v n h1 h2 h3
    unfold readBody
    rw [h1]
    simp only [h2]
    rw [if_neg (by omega)]
    simp [pyRead]
  · intro headers rest v n h1 h2 h3 h4
    unfold readBody
    rw [h1]
    simp only [h2]
    have hn0 : ¬(n = 0) := by
      have : 0 < rest.length := List.length_pos.mpr h3
      omega
    have htake : rest.take n.toNat = rest := by
      apply List.take_of_length_le
      omega
    have hdrop : rest.drop n.toNat = [] := by
      apply List.drop_eq_nil_of_le
      omega
    have hread : pyRead n rest = (rest, []) := by
      unfold pyRead
      rw [if_neg (by omega), htake, hdrop]
    rw [if_neg hn0]
    simp only [hread]
    simp [h3]

/-- Closed instances of each failure mode of read_message at concrete
inputs. -/
theorem read_message_failure_modes_witness :
    readMessageAux [] [(clKey, "9".toList)] = (.eos, [])
    ∧ readMessageAux "nocolon\n".toList [] = (.err, [])
    ∧ readBody [("x".toList, "1".toList)] "body".toList = (.eos, "body".toList)
    ∧ readBody [(clKey, "zzz".toList)] "body".toList = (.err, "body".toList)
    ∧ readBody [(clKey, "0".toList)] "rest".toList = (.eos, "rest".toList)
    ∧ readBody [(clKey, "5".toList)] [] = (.eos, [])
    ∧ readBody [(clKey, "5".toList)] "abc".toList = (.msg "abc".toList, []) := by
  refine ⟨read_message_failure_modes.1 _,
    read_message_failure_modes.2.1 'n' "ocolon\n".toList [] (by decide) (by decide),
    read_message_failure_modes.2.2.1 _ _ (by decide),
    read_message_failure_modes.2.2.2.1 _ _ "zzz".toList (by decide) (by decide),
    read_message_failure_modes.2.2.2.2.1 _ _ "0".toList (by decide) (by decide),
    read_message_failure_modes.2.2.2.2.2.1 _ "5".toList 5 (by decide) (by decide)
      (by decide),
    read_message_failure_modes.2.2.2.2.2.2 _ "abc".toList "5".toList 5 (by decide)
      (by decide) (by decide) (by decide)⟩

theorem runOps_ids_go : ∀ (ops : List LspOp) (c : Conn),
    (runOps c ops).2 = List.range' (c.request_id + 1) (countCalls ops) := by
  intro ops
  induction ops with
  | nil =>
    intro c
    simp [runOps, countCalls]
  | cons o rest ih =>
    intro c
    cases o with
    | call m p =>
      simp only [runOps]
      rw [ih]
      have hc : countCalls (LspOp.call m p :: rest) = countCalls rest + 1 := by
        simp [countCalls, List.filter]
      rw [hc, List.range'_succ]
      rfl
    | notify m p =>
      simp only [runOps]
      rw [ih]
      have hc : countCalls (LspOp.notify m p :: rest) = countCalls rest := by
        simp [countCalls, List.filter]
      rw [hc]
      rfl

/-- C2.  Correlator id allocation: over any operation sequence on a fresh
connection the ids returned by the call steps are exactly 1, 2, ..., n in
order, where n counts the call steps only, so interleaved notifications
change nothing; moreover send_notification leaves the counter untouched
and writes an envelope without an id field, while send_request returns
the incremented counter and writes it into the envelope. -/
theorem correlator_ids (ops : List LspOp) :
    (runOps Conn.fresh ops).2 = List.range' 1 (countCalls ops)
    ∧ (∀ c m p, send_notification c m p
        = { request_id := c.request_id,
            written := c.written ++ [⟨"2.0", none, m, p⟩] })
    ∧ (∀ c m p, send_request c m p
        = (c.request_id + 1,
           { request_id := c.request_id + 1,
             written := c.written ++ [⟨"2.0", some (c.request_id + 1), m, p⟩] })) := by
  refine ⟨?_, fun c m p => rfl, fun c m p => rfl⟩
  rw [runOps_ids_go ops Conn.fresh]
  rfl

/-- C5 counterexample.  The claim asserts every remaining code in 1..26
has its own distinct tag, but codes 15 (String) and 23 (Struct) collide:
both carry the same tag in SYMBOL_KIND_MAP of stree.py. -/
theorem kind_map_collision :
    kind_map 15 = kind_map 23 ∧ (15 : Int) ≠ 23 := by
  decide

/-- C5 as amended.  The kind-tag mapping is total (the dict lookup has a
default, so it never raises): codes 1 to 4 map to the file tag and three
module tags, 5 to the class tag, 6, 9 and 12 to the function tag, 7, 8,
13 and 14 to the variable tag, every code outside 1..26 to the unknown
tag, and the remaining codes map injectively except that 15 and 23 share
the string tag. -/
theorem kind_map_table :
    kind_map 1 = "f:" ∧ kind_map 2 = "d:" ∧ kind_map 3 = "d:" ∧ kind_map 4 = "d:"
    ∧ kind_map 5 = "cl:"
    ∧ kind_map 6 = "fn:" ∧ kind_map 9 = "fn:" ∧ kind_map 12 = "fn:"
    ∧ kind_map 7 = "var:" ∧ kind_map 8 = "var:" ∧ kind_map 13 = "var:"
    ∧ kind_map 14 = "var:"
    ∧ kind_map 15 = "str:" ∧ kind_map 23 = "str:"
    ∧ List.Pairwise (fun a b => kind_map a ≠ kind_map b)
        ([10, 11, 15, 16, 17, 18, 19, 20, 21, 22, 24, 25, 26] : List Int)
    ∧ (∀ k : Int, k ∈ ([10, 11, 16, 17, 18, 19, 20, 21, 22, 24, 25, 26] : List Int) →
        kind_map k ∉ (["f:", "d:", "cl:", "fn:", "var:", "str:", "??:"] : List String))
    ∧ (∀ k : Int, k < 1 ∨ 26 < k → kind_map k = "??:") := by
  refine ⟨rfl, rfl, rfl, rfl, rfl, rfl, rfl, rfl, rfl, rfl, rfl, rfl, rfl, rfl,
    by decide, by decide, ?_⟩
  intro k hk
  unfold kind_map
  split <;> first | rfl | (exact absurd hk (by omega))

/-- Closed instances of the hypothesis-carrying parts of the kind-map
table: the membership statement at code 10 and the out-of-range default
at codes 0, 27 and -3. -/
theorem kind_map_table_witness :
    (kind_map 10 ∉ (["f:", "d:", "cl:", "fn:", "var:", "str:", "??:"] : List String))
    ∧ kind_map 0 = "??:" ∧ kind_map 27 = "??:" ∧ kind_map (-3) = "??:" := by
  refine ⟨kind_map_table.2.2.2.2.2.2.2.2.2.2.2.2.2.2.2.1 10 (by decide), ?_, ?_, ?_⟩
  · exact kind_map_table.2.2.2.2.2.2.2.2.2.2.2.2.2.2.2.2 0 (by omega)
  · exact kind_map_table.2.2.2.2.2.2.2.2.2.2.2.2.2.2.2.2 27 (by omega)
  · exact kind_map_table.2.2.2.2.2.2.2.2.2.2.2.2.2.2.2.2 (-3) (by omega)

/-- C4.  Nested-shape detail appending: a DocumentSymbol whose kind maps
to the function tag (codes 6, 9 or 12) and whose detail is non-empty
produces a node named with the item name, a space, then the detail; a
class-like item (kind 5) never gets its detail appended, whatever the
detail. -/
theorem nested_detail_append (name detail : String) (kind : Int)
    (children : List DocSym) (hk : kind = 6 ∨ kind = 9 ∨ kind = 12)
    (hd : detail ≠ "") :
    (from_doc_symbol (.mk name kind detail children)).name = name ++ " " ++ detail
    ∧ ∀ nm dt cs, (from_doc_symbol (.mk nm 5 dt cs)).name = nm := by
  constructor
  · have hfn : kind_map kind = "fn:" := by
      rcases hk with rfl | rfl | rfl <;> rfl
    rw [from_doc_symbol]
    simp only [hfn]
    rw [if_pos (by simp [hd]; decide)]
    rfl
  · intro nm dt cs
    rw [from_doc_symbol]
    rw [if_neg (by
      rw [show kind_map 5 = "cl:" from rfl,
        show strStarts "cl:" "fn:" = false from by decide]
      simp)]
    rfl

/-- Closed instance of the detail-appending rule at a function item with
a signature detail and a class item carrying a detail. -/
theorem nested_detail_append_witness :
    (from_doc_symbol (.mk "foo" 6 "(x)" [])).name = "foo (x)"
    ∧ (from_doc_symbol (.mk "C" 5 "(y)" [])).name = "C" := by
  have h := nested_detail_append "foo" "(x)" 6 [] (Or.inl rfl) (by decide)
  exact ⟨by rw [h.1]; rfl, h.2 "C" "(y)" []⟩

theorem updateFirst_some {nm : String} {f : SymbolNode → SymbolNode} :
    ∀ {l l' : List SymbolNode}, updateFirst nm f l = some l' →
      ∃ pre n post, l = pre ++ n :: post ∧ n.name = nm ∧ l' = pre ++ f n :: post := by
  intro l
  induction l with
  | nil => intro l' h; simp [updateFirst] at h
  | cons n ns ih =>
    intro l' h
    rw [updateFirst] at h
    by_cases hn : n.name = nm
    · rw [if_pos hn] at h
      exact ⟨[], n, ns, by simp, hn, by simpa using h.symm⟩
    · rw [if_neg hn] at h
      rcases Option.map_eq_some'.mp h with ⟨l0, hl0, rfl⟩
      obtain ⟨pre, m, post, hsplit, hname, hrew⟩ := ih hl0
      exact ⟨n :: pre, m, post, by simp [hsplit], hname, by simp [hrew]⟩

theorem appendChild_name (n y : SymbolNode) : (appendChild n y).name = n.name := by
  cases n
  rfl

theorem appendChild_kind (n y : SymbolNode) : (appendChild n y).kind = n.kind := by
  cases n
  rfl

theorem appendChild_children (n y : SymbolNode) :
    (appendChild n y).children = n.children ++ [y] := by
  cases n
  rfl

theorem placeFlat_preserves {root : SymbolNode} {si : SymInfo}
    (P : SymbolNode → Prop) (hP : ∀ n y, P n → P (appendChild n y))
    (h : ∃ n ∈ root.children, P n) :
    ∃ n ∈ (placeFlat root si).children, P n := by
  obtain ⟨n, hmem, hPn⟩ := h
  have happend : ∀ y, ∃ m ∈ (appendChild root y).children, P m := by
    intro y
    exact ⟨n, by rw [appendChild_children]; exact List.mem_append_left _ hmem, hPn⟩
  unfold placeFlat
  cases hc : si.containerName with
  | none => exact happend _
  | some c =>
    simp only []
    by_cases hne : c ≠ ""
    · rw [if_pos hne]
      cases hupd : updateFirst c (fun m => appendChild m (flatNode si)) root.children with
      | none => exact happend _
      | some cs =>
        obtain ⟨pre, m, post, hsplit, hname, hrew⟩ := updateFirst_some hupd
        rw [hsplit, List.mem_append] at hmem
        subst hrew
        rcases hmem with hmem | hmem
        · exact ⟨n, List.mem_append_left _ hmem, hPn⟩
        · rcases List.mem_cons.mp hmem with rfl | hmem
          · exact ⟨appendChild n (flatNode si),
              List.mem_append_right _ (List.mem_cons_self _ _), hP n _ hPn⟩
          · exact ⟨n, List.mem_append_right _ (List.mem_cons_of_mem _ hmem), hPn⟩
    · rw [if_neg hne]
      exact happend _

theorem buildFlat_preserves {syms : List SymInfo}
    (P : SymbolNode → Prop) (hP : ∀ n y, P n → P (appendChild n y)) :
    ∀ {root : SymbolNode}, (∃ n ∈ root.children, P n) →
      ∃ n ∈ (buildFlat root syms).children, P n := by
  induction syms with
  | nil => intro root h; exact h
  | cons s rest ih =>
    intro root h
    exact ih (placeFlat_preserves P hP h)

theorem placeFlat_establishes_cont {root : SymbolNode} {si : SymInfo} {c : String}
    (hc : si.containerName = some c) (hne : c ≠ "") :
    ∃ n ∈ (placeFlat root si).children, n.name = c ∧ flatNode si ∈ n.children := by
  unfold placeFlat
  rw [hc]
  simp only []
  rw [if_pos hne]
  cases hupd : updateFirst c (fun m => appendChild m (flatNode si)) root.children with
  | none =>
    refine ⟨SymbolNode.mk c "d:" [flatNode si], ?_, rfl, List.mem_singleton.mpr rfl⟩
    rw [appendChild_children]
    exact List.mem_append_right _ (List.mem_singleton.mpr rfl)
  | some cs =>
    obtain ⟨pre, m, post, hsplit, hname, hrew⟩ := updateFirst_some hupd
    subst hrew
    refine ⟨appendChild m (flatNode si),
      List.mem_append_right _ (List.mem_cons_self _ _), ?_, ?_⟩
    · rw [appendChild_name, hname]
    · rw [appendChild_children]
      exact List.mem_append_right _ (List.mem_singleton.mpr rfl)

theorem placeFlat_establishes_root {root : SymbolNode} {si : SymInfo}
    (hc : si.containerName = none ∨ si.containerName = some "") :
    ∃ n ∈ (placeFlat root si).children,
      n.name = si.name ∧ n.kind = kind_map2 si.kind := by
  have happ : ∃ n ∈ (appendChild root (flatNode si)).children,
      n.name = si.name ∧ n.kind = kind_map2 si.kind := by
    refine ⟨flatNode si, ?_, rfl, rfl⟩
    rw [appendChild_children]
    exact List.mem_append_right _ (List.mem_singleton.mpr rfl)
  unfold placeFlat
  rcases hc with hc | hc
  · rw [hc]
    exact happ
  · rw [hc]
    simp only []
    rw [if_neg (by simp)]
    exact happ

theorem buildFlat_spec :
    ∀ (syms : List SymInfo) (root : SymbolNode), ∀ si ∈ syms,
      (∀ c, si.containerName = some c → c ≠ "" →
        ∃ n ∈ (buildFlat root syms).children, n.name = c ∧ flatNode si ∈ n.children)
      ∧ ((si.containerName = none ∨ si.containerName = some "") →
        ∃ n ∈ (buildFlat root syms).children,
          n.name = si.name ∧ n.kind = kind_map2 si.kind) := by
  intro syms
  induction syms with
  | nil => intro root si h; simp at h
  | cons s rest ih =>
    intro root si hmem
    have hfold : buildFlat root (s :: rest) = buildFlat (placeFlat root s) rest := rfl
    rcases List.mem_cons.mp hmem with rfl | hmem
    · constructor
      · intro c hc hne
        rw [hfold]
        exact buildFlat_preserves _
          (fun n y hp => ⟨by rw [appendChild_name]; exact hp.1,
            by rw [appendChild_children]; exact List.mem_append_left _ hp.2⟩)
          (placeFlat_establishes_cont hc hne)
      · intro hc
        rw [hfold]
        exact buildFlat_preserves _
          (fun n y hp => ⟨by rw [appendChild_name]; exact hp.1,
            by rw [appendChild_kind]; exact hp.2⟩)
          (placeFlat_establishes_root hc)
    · rw [hfold]
      exact ih (placeFlat root s) si hmem

/-- C7.  Flat-shape normalization: parse_symbol_information of stree.py
turns every item into a childless node named by the item and tagged
through that file's kind_map, preserving count and order; and in the
container grouping of lsptest2.py every item whose containerName is
truthy ends up as a childless node under a node of that container name
placed directly under the tree root, while every other item contributes
a node with its name and its tag under lsptest2's own kind table
directly under the root. -/
theorem flat_shape_normalization (items syms : List SymInfo)
    (root : SymbolNode) (si : SymInfo) (hmem : si ∈ syms) :
    (∀ n ∈ parse_symbol_information items, n.children = [])
    ∧ parse_symbol_information items
        = items.map (fun it => SymbolNode.mk it.name (kind_map it.kind) [])
    ∧ (flatNode si).children = []
    ∧ (∀ c, si.containerName = some c → c ≠ "" →
        ∃ n ∈ (buildFlat root syms).children, n.name = c ∧ flatNode si ∈ n.children)
    ∧ ((si.containerName = none ∨ si.containerName = some "") →
        ∃ n ∈ (buildFlat root syms).children,
          n.name = si.name ∧ n.kind = kind_map2 si.kind) := by
  refine ⟨?_, rfl, rfl, (buildFlat_spec syms root si hmem).1,
    (buildFlat_spec syms root si hmem).2⟩
  intro n hn
  unfold parse_symbol_information at hn
  rw [List.mem_map] at hn
  obtain ⟨it, _, rfl⟩ := hn
  rfl

/-- Closed instance of the flat-shape grouping: one item with a container
and one without, checked against the produced tree. -/
theorem flat_shape_normalization_witness :
    ∃ n ∈ (buildFlat (SymbolNode.mk "root" "f:" [])
        [⟨"meth", 6, some "Cls"⟩, ⟨"top", 13, none⟩]).children,
      n.name = "Cls" ∧ flatNode ⟨"meth", 6, some "Cls"⟩ ∈ n.children :=
  (flat_shape_normalization [] [⟨"meth", 6, some "Cls"⟩, ⟨"top", 13, none⟩]
    (SymbolNode.mk "root" "f:" []) ⟨"meth", 6, some "Cls"⟩
    (List.mem_cons_self _ _)).2.2.2.1 "Cls" rfl (by decide)

theorem collect_no_match (rid : Int) :
    ∀ msgs : List LspMsg, (∀ m ∈ msgs, m.id ≠ some rid) →
      collect_document_symbols rid msgs = [] := by
  intro msgs
  induction msgs with
  | nil => intro _; rfl
  | cons m ms ih =>
    intro h
    rw [collect_document_symbols]
    rw [if_neg (h m (List.mem_cons_self m ms))]
    exact ih fun x hx => h x (List.mem_cons_of_mem m hx)

theorem attach_file_id (eligible : String → Bool)
    (symsFor : String → List SymbolNode) (n p k : String) (cs : List PTree)
    (h : symsFor p = []) :
    attach_symbols_recursive eligible symsFor (.mk n p "file" k cs)
      = .mk n p "file" k cs := by
  rw [attach_symbols_recursive]
  rw [if_pos rfl]
  by_cases he : eligible p
  · rw [if_pos he, h]
    simp
  · rw [if_neg he]

theorem attach_dir_maps (eligible : String → Bool)
    (symsFor : String → List SymbolNode) (n p k : String) (cs : List PTree) :
    attach_symbols_recursive eligible symsFor (.mk n p "dir" k cs)
      = .mk n p "dir" k (cs.map (attach_symbols_recursive eligible symsFor)) := by
  rw [attach_symbols_recursive]
  rw [if_neg (by decide), if_pos rfl]
  rw [List.attach_map_val cs (attach_symbols_recursive eligible symsFor)]

/-- C8 counterexample.  The claim says end-of-stream before the matching
response surfaces a ProtocolError to the caller; the loop instead returns
the plain empty list, the same value a well-formed response carrying an
empty result produces, so no error value distinct from a successful empty
answer reaches the caller. -/
theorem await_eos_indistinguishable :
    collect_document_symbols 1 [] = []
    ∧ collect_document_symbols 1 [⟨some 1, some (.infoList [])⟩] = [] := by
  constructor <;> rfl

/-- C8 as amended.  When the message stream is exhausted before any
message carries the query id, the read-until-match loop returns the empty
symbol list (it cannot be told apart from a successful empty response);
the surrounding tree build is not aborted: attaching an empty symbol list
leaves the file node unchanged, with zero symbol children, and a
directory node still recurses into every one of its children. -/
theorem await_eos_degrades (rid : Int) (msgs : List LspMsg)
    (hnm : ∀ m ∈ msgs, m.id ≠ some rid)
    (eligible : String → Bool) (n p k dn dp dk : String)
    (cs files : List PTree) :
    collect_document_symbols rid msgs = []
    ∧ (∀ symsFor : String → List SymbolNode, symsFor p = [] →
        attach_symbols_recursive eligible symsFor (.mk n p "file" k cs)
          = .mk n p "file" k cs)
    ∧ (∀ symsFor : String → List SymbolNode,
        attach_symbols_recursive eligible symsFor (.mk dn dp "dir" dk files)
          = .mk dn dp "dir" dk
              (files.map (attach_symbols_recursive eligible symsFor))) :=
  ⟨collect_no_match rid msgs hnm,
   fun symsFor h => attach_file_id eligible symsFor n p k cs h,
   fun symsFor => attach_dir_maps eligible symsFor dn dp dk files⟩

/-- Closed instance: a stream holding only a response for a different id
yields no symbols, and attaching that empty outcome leaves a file node
unchanged inside a still-processed directory. -/
theorem await_eos_degrades_witness :
    collect_document_symbols 1 [⟨some 2, some (.infoList [⟨"x", 6, none⟩])⟩] = []
    ∧ attach_symbols_recursive (fun _ => true) (fun _ => [])
        (.mk "a.py" "/r/a.py" "file" "" []) = .mk "a.py" "/r/a.py" "file" "" [] := by
  have h := await_eos_degrades 1 [⟨some 2, some (.infoList [⟨"x", 6, none⟩])⟩]
    (by intro m hm; rw [List.mem_singleton] at hm; subst hm; decide)
    (fun _ => true) "a.py" "/r/a.py" "" "d" "/r" "" [] []
  exact ⟨h.1, h.2.1 (fun _ => []) rfl⟩

theorem ptree_strong_ind (motive : PTree → Prop)
    (h : ∀ n p t k cs, (∀ c ∈ cs, motive c) → motive (.mk n p t k cs)) :
    ∀ t, motive t := by
  have key : ∀ sz t, sizeOf t ≤ sz → motive t := by
    intro sz
    induction sz with
    | zero =>
      intro t h0
      cases t with
      | mk n p ty k cs => simp at h0
    | succ m ih =>
      intro t hle
      cases t with
      | mk n p ty k cs =>
        apply h
        intro c hc
        apply ih
        have := List.sizeOf_lt_of_mem hc
        simp at hle
        omega
  intro t
  exact key (sizeOf t) t (Nat.le_refl _)

theorem symnode_strong_ind (motive : SymbolNode → Prop)
    (h : ∀ n k cs, (∀ c ∈ cs, motive c) → motive (.mk n k cs)) :
    ∀ t, motive t := by
  have key : ∀ sz t, sizeOf t ≤ sz → motive t := by
    intro sz
    induction sz with
    | zero =>
      intro t h0
      cases t with
      | mk n k cs => simp at h0
    | succ m ih =>
      intro t hle
      cases t with
      | mk n k cs =>
        apply h
        intro c hc
        apply ih
        have := List.sizeOf_lt_of_mem hc
        simp at hle
        omega
  intro t
  exact key (sizeOf t) t (Nat.le_refl _)

theorem symToTree_fields (path : String) (s : SymbolNode) :
    (symToTree path s).node_type = "symbol" ∧ (symToTree path s).path = path := by
  cases s with
  | mk n k cs =>
    rw [symToTree]
    exact ⟨rfl, rfl⟩

theorem symToTree_invB (path : String) :
    ∀ s : SymbolNode, invB (symToTree path s) = true := by
  intro s
  induction s using symnode_strong_ind with
  | h n k cs ih =>
    rw [symToTree, invB]
    rw [if_pos rfl, if_neg (by decide : ¬(("symbol" : String) = "file"))]
    rw [List.attach_map_val cs (symToTree path)]
    have hX : ((cs.map (symToTree path)).all fun c =>
        decide (c.node_type = "symbol") && decide (c.path = path)) = true := by
      rw [List.all_eq_true]
      intro c hc
      rw [List.mem_map] at hc
      obtain ⟨s0, _, rfl⟩ := hc
      have hf := symToTree_fields path s0
      simp [hf.1, hf.2]
    have hZ : ((cs.map (symToTree path)).attach.all fun c => invB c.1) = true := by
      rw [List.all_eq_true]
      intro x _
      have hmem := x.2
      rw [List.mem_map] at hmem
      obtain ⟨s0, hs0, heq⟩ := hmem
      rw [← heq]
      exact ih s0 hs0
    rw [hX, hZ]
    rfl

theorem pureFS_children {n p t k : String} {cs : List PTree}
    (h : pureFS (.mk n p t k cs) = true) :
    (t = "dir" ∨ t = "file") ∧ ∀ c ∈ cs, pureFS c = true := by
  rw [pureFS] at h
  simp only [Bool.and_eq_true, Bool.or_eq_true, decide_eq_true_eq,
    List.all_eq_true] at h
  refine ⟨h.1, fun c hc => ?_⟩
  have := h.2 ⟨c, hc⟩ (List.mem_attach cs ⟨c, hc⟩)
  exact this

theorem pureFS_node_type {c : PTree} (h : pureFS c = true) :
    c.node_type = "dir" ∨ c.node_type = "file" := by
  cases c with
  | mk n p t k cs => exact (pureFS_children h).1

theorem pureFS_invB : ∀ t : PTree, pureFS t = true → invB t = true := by
  intro t
  induction t using ptree_strong_ind with
  | h n p ty k cs ih =>
    intro hp
    obtain ⟨hty, hcs⟩ := pureFS_children hp
    rw [invB]
    have hA : (if ty = "symbol" then
        cs.all fun c => decide (c.node_type = "symbol") && decide (c.path = p)
        else true) = true := by
      rcases hty with hty | hty <;> rw [hty, if_neg (by decide)]
    have hB : (if ty = "file" then
        cs.all fun c => !(decide (c.node_type = "symbol")) || decide (c.path = p)
        else true) = true := by
      rcases hty with hty | hty
      · rw [hty, if_neg (by decide)]
      · rw [hty, if_pos rfl, List.all_eq_true]
        intro c hc
        rcases pureFS_node_type (hcs c hc) with hct | hct <;> simp [hct]
    have hC : (cs.attach.all fun c => invB c.1) = true := by
      rw [List.all_eq_true]
      intro x _
      exact ih x.1 x.2 (hcs x.1 x.2)
    rw [hA, hB, hC]
    rfl

theorem attach_preserves_invB : ∀ t : PTree, pureFS t = true →
    ∀ (eligible : String → Bool) (symsFor : String → List SymbolNode),
      invB (attach_symbols_recursive eligible symsFor t) = true := by
  intro t
  induction t using ptree_strong_ind with
  | h n p ty k cs ih =>
    intro hp eligible symsFor
    obtain ⟨hty, hcs⟩ := pureFS_children hp
    rcases hty with hty | hty
    · subst hty
      rw [attach_dir_maps]
      rw [invB]
      rw [if_neg (by decide : ¬(("dir" : String) = "symbol")),
        if_neg (by decide : ¬(("dir" : String) = "file"))]
      have hC : (((cs.map (attach_symbols_recursive eligible symsFor)).attach.all
          fun c => invB c.1)) = true := by
        rw [List.all_eq_true]
        intro x _
        have hmem := x.2
        rw [List.mem_map] at hmem
        obtain ⟨c0, hc0, heq⟩ := hmem
        rw [← heq]
        exact ih c0 hc0 (hcs c0 hc0) eligible symsFor
      rw [hC]
      rfl
    · subst hty
      rw [attach_symbols_recursive, if_pos rfl]
      by_cases he : eligible p
      · rw [if_pos he, invB]
        rw [if_neg (by decide : ¬(("file" : String) = "symbol")), if_pos rfl]
        have hB : ((cs ++ (symsFor p).map (symToTree p)).all fun c =>
            !(decide (c.node_type = "symbol")) || decide (c.path = p)) = true := by
          rw [List.all_eq_true]
          intro c hc
          rw [List.mem_append] at hc
          rcases hc with hc | hc
          · rcases pureFS_node_type (hcs c hc) with hct | hct <;> simp [hct]
          · rw [List.mem_map] at hc
            obtain ⟨s0, _, rfl⟩ := hc
            simp [(symToTree_fields p s0).2]
        have hC : (((cs ++ (symsFor p).map (symToTree p)).attach.all
            fun c => invB c.1)) = true := by
          rw [List.all_eq_true]
          intro x _
          have hmem := x.2
          rw [List.mem_append] at hmem
          rcases hmem with hm | hm
          · exact pureFS_invB x.1 (hcs x.1 hm)
          · rw [List.mem_map] at hm
            obtain ⟨s0, _, heq⟩ := hm
            rw [← heq]
            exact symToTree_invB p s0
        rw [hB, hC]
        rfl
      · rw [if_neg he]
        exact pureFS_invB _ hp

/-- C9.  Symbol-subtree invariant: attaching symbols to any pure
filesystem tree yields a tree in which every child of a symbol node is
again a symbol node carrying the path of its parent, and every symbol
child of a file node carries that file's path — so recursively every
symbol node under a file carries the owning file's path. -/
theorem symbol_subtree_invariant (eligible : String → Bool)
    (symsFor : String → List SymbolNode) (t : PTree)
    (h : pureFS t = true) :
    invB (attach_symbols_recursive eligible symsFor t) = true :=
  attach_preserves_invB t h eligible symsFor

/-- Closed instance of the symbol-subtree invariant on a directory with
one eligible file receiving a nested symbol. -/
theorem symbol_subtree_invariant_witness :
    invB (attach_symbols_recursive (fun _ => true)
      (fun _ => [SymbolNode.mk "foo" "fn:" [SymbolNode.mk "bar" "var:" []]])
      (PTree.mk "r" "/r" "dir" "" [PTree.mk "a.py" "/r/a.py" "file" "" []]))
      = true :=
  symbol_subtree_invariant _ _ _ (by simp [pureFS])

/-- Whether stat would raise FileNotFoundError for this item. -/
def isVanished : FSItem → Bool
  | .vanished => true
  | _ => false

theorem basename_join {p nm : String} (h1 : nm ≠ "")
    (h2 : ('/' : Char) ∉ nm.toList) : pyBasename (p ++ "/" ++ nm) = nm := by
  unfold pyBasename
  have htl : (p ++ "/" ++ nm).toList = p.toList ++ '/' :: nm.toList := by
    simp [String.toList]
  rw [htl]
  have hrev : (p.toList ++ '/' :: nm.toList).reverse
      = nm.toList.reverse ++ '/' :: p.toList.reverse := by
    simp
  rw [hrev]
  rw [List.takeWhile_append_of_pos]
  · rw [show List.takeWhile (fun c => decide (c ≠ '/')) ('/' :: p.toList.reverse)
        = [] from by simp [List.takeWhile_cons]]
    rw [List.append_nil, List.reverse_reverse]
    cases nm
    rfl
  · intro a ha
    rw [List.mem_reverse] at ha
    simp only [decide_eq_true_eq]
    intro he
    exact h2 (he ▸ ha)

theorem treeName_join {p nm : String} (h1 : nm ≠ "")
    (h2 : ('/' : Char) ∉ nm.toList) : treeName (p ++ "/" ++ nm) = nm := by
  unfold treeName
  rw [basename_join h1 h2, if_neg h1]

theorem build_ignored (spec : Option (String → Bool)) (root : String)
    (hid : Bool) (q : String) (it : FSItem)
    (h : is_ignored spec root q hid = true) :
    build_filesystem_tree spec root hid q it = none := by
  rw [build_filesystem_tree.eq_def, if_pos h]

theorem build_some_name {spec : Option (String → Bool)} {root : String}
    {hid : Bool} {q : String} {it : FSItem} {nd : PTree}
    (h : build_filesystem_tree spec root hid q it = some nd) :
    nd.name = treeName q := by
  rw [build_filesystem_tree.eq_def] at h
  by_cases hig : is_ignored spec root q hid = true
  · rw [if_pos hig] at h
    exact absurd h (by simp)
  · rw [if_neg hig] at h
    cases it with
    | file =>
      rw [Option.some.injEq] at h
      rw [← h]
      rfl
    | dir entries =>
      rw [Option.some.injEq] at h
      rw [← h]
      rfl
    | vanished => exact absurd h (by simp)
    | deniedDir =>
      rw [Option.some.injEq] at h
      rw [← h]
      rfl

theorem build_isSome (spec : Option (String → Bool)) (root : String)
    (hid : Bool) (q : String) (it : FSItem) :
    (build_filesystem_tree spec root hid q it).isSome
      = (!(is_ignored spec root q hid) && !(isVanished it)) := by
  rw [build_filesystem_tree.eq_def]
  by_cases hig : is_ignored spec root q hid = true
  · rw [if_pos hig, hig]
    simp
  · rw [if_neg hig]
    have hf : is_ignored spec root q hid = false := by
      cases h : is_ignored spec root q hid
      · rfl
      · exact absurd h hig
    rw [hf]
    cases it <;> simp [isVanished]

theorem pairwise_map_filterMap {α β γ : Type _} (f : α → Option β) (g : β → γ)
    (r : α → α → Prop) (le' : γ → γ → Prop) :
    ∀ l : List α,
      (∀ a ∈ l, ∀ b ∈ l, ∀ x y, r a b → f a = some x → f b = some y →
        le' (g x) (g y)) →
      List.Pairwise r l → List.Pairwise le' ((l.filterMap f).map g) := by
  intro l
  induction l with
  | nil => intro _ _; simp
  | cons a l ih =>
    intro hrel hp
    rw [List.pairwise_cons] at hp
    rw [List.filterMap_cons]
    cases hfa : f a with
    | none =>
      exact ih
        (fun x hx y hy => hrel x (List.mem_cons_of_mem a hx) y
          (List.mem_cons_of_mem a hy))
        hp.2
    | some x =>
      rw [List.map_cons, List.pairwise_cons]
      constructor
      · intro z hz
        rw [List.mem_map] at hz
        obtain ⟨y, hy, rfl⟩ := hz
        rw [List.mem_filterMap] at hy
        obtain ⟨b, hb, hfb⟩ := hy
        exact hrel a (List.mem_cons_self a l) b (List.mem_cons_of_mem a hb) x y
          (hp.1 b hb) hfa hfb
      · exact ih
          (fun u hu v hv => hrel u (List.mem_cons_of_mem a hu) v
            (List.mem_cons_of_mem a hv))
          hp.2

/-- C6.  Filesystem tree builder: on any directory whose entry names are
non-empty and slash-free (what os.scandir yields), building succeeds when
the directory itself is not ignored, the children's names are sorted
ascending, and the number of children equals the number of entries that
are neither ignored nor vanished at stat time; and any ignored path
builds to the absent value. -/
theorem build_children_sorted_count (spec : Option (String → Bool))
    (root : String) (hid : Bool) (path : String)
    (entries : List (String × FSItem))
    (hni : is_ignored spec root path hid = false)
    (hwf : ∀ e ∈ entries, e.1 ≠ "" ∧ ('/' : Char) ∉ e.1.toList) :
    (∃ node, build_filesystem_tree spec root hid path (.dir entries) = some node
      ∧ node.node_type = "dir"
      ∧ List.Pairwise (fun a b : String => a ≤ b) (node.children.map PTree.name)
      ∧ node.children.length = (entries.filter fun e =>
          !(is_ignored spec root (path ++ "/" ++ e.1) hid)
            && !(isVanished e.2)).length)
    ∧ (∀ q it, is_ignored spec root q hid = true →
        build_filesystem_tree spec root hid q it = none) := by
  refine ⟨?_, fun q it h => build_ignored spec root hid q it h⟩
  rw [build_filesystem_tree]
  rw [if_neg (by rw [hni]; exact Bool.false_ne_true)]
  refine ⟨_, rfl, rfl, ?_, ?_⟩ <;> simp only [PTree.children]
  · have hsorted : List.Pairwise
        (fun a b : {x // x ∈ entries} => decide (a.1.1 ≤ b.1.1) = true)
        (entries.attach.mergeSort fun a b => decide (a.1.1 ≤ b.1.1)) := by
      exact List.sorted_mergeSort
        (fun a b c h1 h2 => by
          rw [decide_eq_true_eq] at *
          exact le_trans h1 h2)
        (fun a b => by
          rcases le_total a.1.1 b.1.1 with h | h <;> simp [h])
        entries.attach
    refine pairwise_map_filterMap _ PTree.name
      (fun a b : {x // x ∈ entries} => decide (a.1.1 ≤ b.1.1) = true)
      (fun a b : String => a ≤ b) _ ?_ hsorted
    intro a _ b _ x y hr hfa hfb
    have hna : x.name = a.1.1 := by
      rw [build_some_name hfa, treeName_join (hwf a.1 a.2).1 (hwf a.1 a.2).2]
    have hnb : y.name = b.1.1 := by
      rw [build_some_name hfb, treeName_join (hwf b.1 b.2).1 (hwf b.1 b.2).2]
    rw [hna, hnb]
    exact of_decide_eq_true hr
  · rw [List.length_filterMap_eq_countP]
    rw [List.Perm.countP_eq _ (List.mergeSort_perm entries.attach _)]
    rw [List.countP_congr (fun e _ => by
      rw [build_isSome spec root hid (path ++ "/" ++ e.1.1) e.1.2])]
    rw [List.countP_attach entries (fun x =>
      !(is_ignored spec root (path ++ "/" ++ x.1) hid) && !(isVanished x.2))]
    rw [List.countP_eq_length_filter]

/-- Closed instance of the builder shape facts on a three-entry directory
holding an unsorted pair of files and one vanished entry. -/
theorem build_children_sorted_count_witness :
    ∃ node, build_filesystem_tree none "" false "r"
        (.dir [("b", .file), ("a", .file), ("c", .vanished)]) = some node
      ∧ node.node_type = "dir"
      ∧ List.Pairwise (fun a b : String => a ≤ b) (node.children.map PTree.name)
      ∧ node.children.length
          = ([("b", FSItem.file), ("a", FSItem.file),
              ("c", FSItem.vanished)].filter fun e =>
                !(is_ignored none "" ("r" ++ "/" ++ e.1) false)
                  && !(isVanished e.2)).length :=
  (build_children_sorted_count none "" false "r"
    [("b", .file), ("a", .file), ("c", .vanished)] (by decide)
    (by decide)).1

end Stree
